import Mathlib

/-!
Verification of the `multierr` Go package (`src/multierr.go`).

The package combines multiple Go `error` values into one.  Go's `error`
interface is modelled by the inductive type `Err`:

* `Err.base tag id msg` — a plain error value produced by external code
  (e.g. `errors.New`).  `tag` models its dynamic type (for `errors.As`),
  `id` models its object identity (pointer identity, for `errors.Is`),
  and `msg` is the string returned by its `Error()` method.
* `Err.wrapped tag id msg cause` — an error that wraps another error
  (e.g. `fmt.Errorf` with `%w`), so that the host language's chain
  semantics (`errors.Is`/`errors.As` unwrap recursively) are visible.
* `Err.multi elems` — the package's unexported `multi []error` type.

A Go `error` variable which may be `nil` is modelled as `Option Err`
(`none` = nil).  Side effects are modelled explicitly: the callback of
`ForEach` becomes a state-passing function, and a `panic` in `Error()`
becomes the `none` case of an `Option String` result.
-/

namespace Multierr

inductive Err where
  | base (tag id : Nat) (msg : String)
  | wrapped (tag id : Nat) (msg : String) (cause : Err)
  | multi (elems : List Err)

/-- `e.isMulti` is the Go type assertion `_, ok := e.(multi)`. -/
def Err.isMulti : Err → Bool
  | .multi _ => true
  | _ => false

/-- `func Append(dest error, err error) error` from `src/multierr.go`
(lines 79–97), translated branch for branch:

    if err == nil { return dest }
    else if dest == nil { return err }
    else if md, ok := dest.(multi); ok {
      if ms, ok := err.(multi); ok { return append(md, ms...) }
      else { return append(md, err) }
    } else {
      if ms, ok := err.(multi); ok { return append(multi{dest}, ms...) }
      else { return multi{dest, err} }
    }
-/
def Append (dest err : Option Err) : Option Err :=
  match err with
  | none => dest
  | some e =>
    match dest with
    | none => some e
    | some d =>
      match d, e with
      | .multi md, .multi ms => some (.multi (md ++ ms))
      | .multi md, _ => some (.multi (md ++ [e]))
      | _, .multi ms => some (.multi (d :: ms))
      | _, _ => some (.multi [d, e])

/-- `func ForEach(err error, f func(err error))` from `src/multierr.go`
(lines 102–112).  The Go callback `f` has the side effect of updating
captured state; here that state is passed explicitly: `f` takes the
current state and the visited error, and `ForEach` returns the final
state.  The sequence of calls is exactly the Go one: none for nil,
a left-to-right loop over the elements for a `multi`, and a single
call `f err` otherwise. -/
def ForEach {σ : Type} (err : Option Err) (f : σ → Err → σ) (init : σ) : σ :=
  match err with
  | none => init
  | some e =>
    match e with
    | .multi m => m.foldl f init
    | _ => f init e

/-- `func Len(err error) int` from `src/multierr.go` (lines 117–125). -/
def Len (err : Option Err) : Nat :=
  match err with
  | none => 0
  | some e =>
    match e with
    | .multi m => m.length
    | _ => 1

/-- `func All(err error) []error` from `src/multierr.go` (lines 130–136):
it starts from a nil slice and appends each visited error via `ForEach`. -/
def All (err : Option Err) : List Err :=
  ForEach err (fun errs e => errs ++ [e]) []

/-- Go pointer equality (`err == target` inside `errors.Is`): two error
objects are the same value iff they are the same object, which the model
identifies by constructor kind, `tag` and `id`.  A `multi` is a slice and
slices are not comparable in Go, so `errors.Is` skips the equality test
for it; here that test is simply `false`. -/
def ptrEq : Err → Err → Bool
  | .base t i _, .base u j _ => decide (t = u) && decide (i = j)
  | .wrapped t i _ _, .wrapped u j _ _ => decide (t = u) && decide (i = j)
  | _, _ => false

mutual

/-- `func (m multi) Is(target error) bool` from `src/multierr.go`
(lines 58–65): loop over the elements in order, return `true` at the
first element for which `errors.Is(err, target)` holds, else `false`. -/
def multiIs : List Err → Err → Bool
  | [], _ => false
  | e :: rest, target => if errorsIs e target then true else multiIs rest target
termination_by es _ => sizeOf es

/-- Modelled host-language function `errors.Is(err, target)` (a consumed
contract of the Go standard library): reports whether `err` or an error
in its chain equals `target`.  It first tests `err == target` (when `err`
is comparable), then calls `err`'s own `Is` method if it has one (`multi`
does: `multiIs`), then unwraps.  `base` has no `Is` and no `Unwrap`;
`wrapped` unwraps to its cause; `multi` has the `Is` method above. -/
def errorsIs : Err → Err → Bool
  | .base t i m, target => ptrEq (.base t i m) target
  | .wrapped t i m c, target => ptrEq (.wrapped t i m c) target || errorsIs c target
  | .multi es, target => multiIs es target
termination_by e _ => sizeOf e

end

mutual

/-- `func (m multi) As(target interface{}) bool` from `src/multierr.go`
(lines 49–56): loop over the elements in order, return at the first
element for which `errors.As(err, target)` succeeds.  Go's `As` writes
the matching value into `target` and returns `true`; the model returns
`some v` where `v` is the value that would be written, `none` for `false`. -/
def multiAs : List Err → Nat → Option Err
  | [], _ => none
  | e :: rest, t =>
    match errorsAs e t with
    | some v => some v
    | none => multiAs rest t
termination_by es _ => sizeOf es

/-- Modelled host-language function `errors.As(err, target)` (a consumed
contract of the Go standard library), with the target type descriptor
modelled as the `tag` of a dynamic type: if `err`'s dynamic type matches,
bind `err` itself; otherwise call `err`'s own `As` method if it has one
(`multi` does: `multiAs`), then unwrap.  `multi` itself carries no tag
(callers never name the unexported type), so on a `multi` this is its
`As` method. -/
def errorsAs : Err → Nat → Option Err
  | .base tg i m, t => if tg = t then some (.base tg i m) else none
  | .wrapped tg i m c, t => if tg = t then some (.wrapped tg i m c) else errorsAs c t
  | .multi es, t => multiAs es t
termination_by e _ => sizeOf e

end

/-- Go's `strings.ReplaceAll(s, "\n", "\n\t")` on the underlying
character list (the pattern is the single character `'\n'`, so the
replacement is character by character). -/
def replaceNlChars : List Char → List Char
  | [] => []
  | c :: rest =>
    if c = '\n' then '\n' :: '\t' :: replaceNlChars rest
    else c :: replaceNlChars rest

/-- `strings.ReplaceAll(s, "\n", "\n\t")` as used in `DefaultFormatMessage`. -/
def replaceNl (s : String) : String := ⟨replaceNlChars s.data⟩

/-- The element loop of `DefaultFormatMessage` (`src/multierr.go` lines
147–153), already applied to the elements' message strings: for index `i`
and message `s` it writes `"\n"` when `i > 0`, then `"(<i+1>) "` and the
message with newlines replaced by newline+tab. -/
def formatBody (i : Nat) : List String → String
  | [] => ""
  | s :: rest =>
    (if 0 < i then "\n" else "") ++ "(" ++ toString (i + 1) ++ ") " ++ replaceNl s
      ++ formatBody (i + 1) rest

/-- The full output of `DefaultFormatMessage` given the element count and
the elements' message strings: the header `"<N> errors occurred:\n"`
followed by the element lines. -/
def formatFromMsgs (n : Nat) (msgs : List String) : String :=
  toString n ++ " errors occurred:\n" ++ formatBody 0 msgs

mutual

/-- The `Error()` method of an error value.  For `base` and `wrapped` it
is the stored message (external errors never panic in this model); for
`multi` it is `func (m multi) Error() string` from `src/multierr.go`
(lines 38–47).  A Go `panic` is modelled as `none`. -/
def errMsg : Err → Option String
  | .base _ _ m => some m
  | .wrapped _ _ m _ => some m
  | .multi es => multiError es
termination_by e => 3 * sizeOf e

/-- `func (m multi) Error() string` from `src/multierr.go` (lines 38–47):
zero elements panic (`none`), one element returns that element's message,
otherwise it calls the `FormatMessage` hook, which is modelled at its
default value `DefaultFormatMessage` (`var FormatMessage = DefaultFormatMessage`,
line 141). -/
def multiError : List Err → Option String
  | [] => none
  | [e] => errMsg e
  | es => DefaultFormatMessage es
termination_by es => 3 * sizeOf es + 2

/-- `func DefaultFormatMessage(errs []error) string` from
`src/multierr.go` (lines 144–155).  It calls `err.Error()` on every
element; if any of those panics (an empty `multi` element), the panic
propagates (`none`). -/
def DefaultFormatMessage (errs : List Err) : Option String :=
  (errsMsgs errs).map (formatFromMsgs errs.length)
termination_by 3 * sizeOf errs + 1

/-- The `err.Error()` calls `DefaultFormatMessage` makes, one per element
in order; `none` as soon as one panics. -/
def errsMsgs : List Err → Option (List String)
  | [] => some []
  | e :: rest =>
    match errMsg e, errsMsgs rest with
    | some m, some ms => some (m :: ms)
    | _, _ => none
termination_by es => 3 * sizeOf es

end

/-! ### Helper lemmas shared by the claim theorems -/

theorem foldl_push (m l : List Err) :
    m.foldl (fun errs e => errs ++ [e]) l = l ++ m := by
  induction m generalizing l with
  | nil => simp
  | cons a rest ih => simp [List.foldl_cons, ih]

@[simp] theorem All_none : All none = [] := rfl

@[simp] theorem All_multi (m : List Err) : All (some (.multi m)) = m := by
  simp [All, ForEach, foldl_push]

theorem All_single (e : Err) (h : e.isMulti = false) : All (some e) = [e] := by
  cases e <;> simp_all [All, ForEach, Err.isMulti]

theorem foldl_count (m : List Err) (n : Nat) :
    m.foldl (fun k _ => k + 1) n = n + m.length := by
  induction m generalizing n with
  | nil => simp
  | cons a rest ih => simp [List.foldl_cons, ih]; omega

/-- The construction invariant of the package (spec I1/I4): a value of
the `multi` type has at least two elements and none of its direct
elements is itself a `multi`.  Nil and singular errors satisfy it
vacuously. -/
def Inv : Option Err → Prop
  | some (.multi es) => 2 ≤ es.length ∧ ∀ x ∈ es, x.isMulti = false
  | _ => True

theorem inv_none : Inv none := trivial

theorem inv_single (e : Err) (h : e.isMulti = false) : Inv (some e) := by
  cases e <;> simp_all [Inv, Err.isMulti]

theorem inv_append (a b : Option Err) (ha : Inv a) (hb : Inv b) :
    Inv (Append a b) := by
  match b with
  | none => simpa [Append] using ha
  | some e =>
    match a with
    | none => simpa [Append] using hb
    | some d =>
      match d, e with
      | .multi md, .multi ms =>
        obtain ⟨hl, hm⟩ := ha
        obtain ⟨hl2, hm2⟩ := hb
        refine ⟨?_, ?_⟩
        · simp only [List.length_append]; omega
        · intro x hx
          rcases List.mem_append.mp hx with h | h
          · exact hm x h
          · exact hm2 x h
      | .multi md, .base t i m =>
        obtain ⟨hl, hm⟩ := ha
        refine ⟨?_, ?_⟩
        · simp only [List.length_append, List.length_cons, List.length_nil]; omega
        · intro x hx
          rcases List.mem_append.mp hx with h | h
          · exact hm x h
          · simp only [List.mem_singleton] at h
            subst h; rfl
      | .multi md, .wrapped t i m c =>
        obtain ⟨hl, hm⟩ := ha
        refine ⟨?_, ?_⟩
        · simp only [List.length_append, List.length_cons, List.length_nil]; omega
        · intro x hx
          rcases List.mem_append.mp hx with h | h
          · exact hm x h
          · simp only [List.mem_singleton] at h
            subst h; rfl
      | .base t i m, .multi ms =>
        obtain ⟨hl2, hm2⟩ := hb
        refine ⟨?_, ?_⟩
        · simp only [List.length_cons]; omega
        · intro x hx
          rcases List.mem_cons.mp hx with h | h
          · subst h; rfl
          · exact hm2 x h
      | .wrapped t i m c, .multi ms =>
        obtain ⟨hl2, hm2⟩ := hb
        refine ⟨?_, ?_⟩
        · simp only [List.length_cons]; omega
        · intro x hx
          rcases List.mem_cons.mp hx with h | h
          · subst h; rfl
          · exact hm2 x h
      | .base t i m, .base u j n => exact ⟨by simp, by
          intro x hx
          simp only [List.mem_cons, List.not_mem_nil, or_false] at hx
          rcases hx with h | h <;> (subst h; rfl)⟩
      | .base t i m, .wrapped u j n c => exact ⟨by simp, by
          intro x hx
          simp only [List.mem_cons, List.not_mem_nil, or_false] at hx
          rcases hx with h | h <;> (subst h; rfl)⟩
      | .wrapped t i m c, .base u j n => exact ⟨by simp, by
          intro x hx
          simp only [List.mem_cons, List.not_mem_nil, or_false] at hx
          rcases hx with h | h <;> (subst h; rfl)⟩
      | .wrapped t i m c, .wrapped u j n d => exact ⟨by simp, by
          intro x hx
          simp only [List.mem_cons, List.not_mem_nil, or_false] at hx
          rcases hx with h | h <;> (subst h; rfl)⟩

theorem all_append_single (a : Option Err) (e : Err) (he : e.isMulti = false) :
    All (Append a (some e)) = All a ++ [e] := by
  match a with
  | none => simp [Append, All_single e he]
  | some (.multi m) =>
    cases e <;> simp_all [Append, Err.isMulti]
  | some (.base t i s) =>
    cases e <;> simp_all [Append, All, ForEach, Err.isMulti]
  | some (.wrapped t i s c) =>
    cases e <;> simp_all [Append, All, ForEach, Err.isMulti]

theorem errorsIs_multi (es : List Err) (t : Err) :
    errorsIs (.multi es) t = multiIs es t := by
  simp [errorsIs]

theorem multiIs_iff (es : List Err) (t : Err) :
    multiIs es t = true ↔ ∃ e ∈ es, errorsIs e t = true := by
  induction es with
  | nil => simp [multiIs]
  | cons a rest ih =>
    by_cases h : errorsIs a t = true
    · simp [multiIs, h]
    · simp only [Bool.not_eq_true] at h
      simp [multiIs, h, ih]

theorem errorsIs_self (e : Err) (h : e.isMulti = false) : errorsIs e e = true := by
  cases e with
  | base t i m => simp [errorsIs, ptrEq]
  | wrapped t i m c => simp [errorsIs, ptrEq]
  | multi es => simp [Err.isMulti] at h

theorem errorsAs_multi (es : List Err) (t : Nat) :
    errorsAs (.multi es) t = multiAs es t := by
  simp [errorsAs]

theorem multiAs_findSome (es : List Err) (t : Nat) :
    multiAs es t = es.findSome? (fun e => errorsAs e t) := by
  induction es with
  | nil => simp [multiAs]
  | cons a rest ih =>
    simp only [multiAs, List.findSome?_cons]
    cases errorsAs a t <;> simp [ih]

theorem multiAs_isSome_iff (es : List Err) (t : Nat) :
    (multiAs es t).isSome = true ↔ ∃ e ∈ es, (errorsAs e t).isSome = true := by
  induction es with
  | nil => simp [multiAs]
  | cons a rest ih =>
    simp only [multiAs]
    cases h : errorsAs a t with
    | some v => simp [h]
    | none => simp [h, ih]

/-- The suffix `s ++ b₁ ++ s ++ b₂ ++ …` that `String.intercalate s`
produces after its first element. -/
def joinTail (s : String) : List String → String
  | [] => ""
  | b :: bs => s ++ b ++ joinTail s bs

theorem intercalate_go_spec (s : String) (as : List String) (a : String) :
    String.intercalate.go a s as = a ++ joinTail s as := by
  induction as generalizing a with
  | nil => simp [String.intercalate.go, joinTail]
  | cons b bs ih => simp [String.intercalate.go, joinTail, ih, String.append_assoc]

theorem intercalate_cons (s a : String) (as : List String) :
    String.intercalate s (a :: as) = a ++ joinTail s as := by
  simp [String.intercalate, intercalate_go_spec]

/-- The line the spec prescribes for element number `i` (0-based here,
printed 1-based): `"(<i+1>) <message with newlines indented>"`. -/
def specLine (i : Nat) (s : String) : String :=
  "(" ++ toString (i + 1) ++ ") " ++ replaceNl s

/-- The per-element lines of the spec's format, for messages numbered
from `i` upward. -/
def specLinesFrom (i : Nat) (msgs : List String) : List String :=
  (List.enumFrom i msgs).map (fun p => specLine p.1 p.2)

theorem formatBody_pos (msgs : List String) (i : Nat) (h : 0 < i) :
    formatBody i msgs = joinTail "\n" (specLinesFrom i msgs) := by
  induction msgs generalizing i with
  | nil => simp [formatBody, specLinesFrom, joinTail]
  | cons s rest ih =>
    have h2 : 0 < i + 1 := Nat.succ_pos i
    simp [formatBody, specLinesFrom, joinTail, specLine, h, ih (i + 1) h2,
      String.append_assoc]
    rfl

theorem formatBody_zero (msgs : List String) :
    formatBody 0 msgs = String.intercalate "\n" (specLinesFrom 0 msgs) := by
  cases msgs with
  | nil => simp [formatBody, specLinesFrom, String.intercalate]
  | cons s rest =>
    rw [formatBody]
    simp only [specLinesFrom, List.enumFrom_cons, List.map_cons]
    rw [intercalate_cons]
    simp [specLine, formatBody_pos rest 1 Nat.one_pos, specLinesFrom,
      String.append_assoc]

theorem errMsg_multi (es : List Err) : errMsg (.multi es) = multiError es := by
  simp [errMsg]

theorem multiError_ge2 (a b : Err) (rest : List Err) :
    multiError (a :: b :: rest) = DefaultFormatMessage (a :: b :: rest) := by
  simp [multiError]

/-- The accumulation pattern the spec describes (§6, P3): start from nil
and fold `err = Append(err, e)` over a list of errors, left to right. -/
def accumulate (es : List Err) : Option Err :=
  es.foldl (fun acc e => Append acc (some e)) none

theorem all_foldl (es : List Err) (h : ∀ e ∈ es, e.isMulti = false) :
    ∀ acc : Option Err,
      All (es.foldl (fun acc e => Append acc (some e)) acc) = All acc ++ es := by
  induction es with
  | nil => intro acc; simp
  | cons a rest ih =>
    intro acc
    have ha : a.isMulti = false := h a (List.mem_cons_self a rest)
    have hrest : ∀ e ∈ rest, e.isMulti = false :=
      fun e he => h e (List.mem_cons_of_mem a he)
    simp only [List.foldl_cons]
    rw [ih hrest, all_append_single acc a ha]
    simp

theorem inv_foldl (es : List Err) (h : ∀ e ∈ es, e.isMulti = false) :
    ∀ acc : Option Err, Inv acc →
      Inv (es.foldl (fun acc e => Append acc (some e)) acc) := by
  induction es with
  | nil => intro acc hacc; simpa
  | cons a rest ih =>
    intro acc hacc
    have ha : a.isMulti = false := h a (List.mem_cons_self a rest)
    exact ih (fun e he => h e (List.mem_cons_of_mem a he)) _
      (inv_append acc (some a) hacc (inv_single a ha))

/-! ### Claim theorems -/

/-- Claim C1: `Append(a, b)` follows the five-rule case analysis in
order — nil `b` returns `a`; nil `a` returns `b`; composite `a` gets
`b`'s elements (flattened) appended; composite `b` is prepended with
`a`; otherwise the 2-element composite `[a, b]` is built.  For two
present non-composite errors the result has `All = [a, b]` and
`Len = 2`. -/
theorem append_case_analysis :
    (∀ a : Option Err, Append a none = a) ∧
    (∀ e : Err, Append none (some e) = some e) ∧
    (∀ md ms : List Err,
      Append (some (Err.multi md)) (some (Err.multi ms))
        = some (Err.multi (md ++ ms))) ∧
    (∀ (md : List Err) (b : Err), b.isMulti = false →
      Append (some (Err.multi md)) (some b) = some (Err.multi (md ++ [b]))) ∧
    (∀ (a : Err) (ms : List Err), a.isMulti = false →
      Append (some a) (some (Err.multi ms)) = some (Err.multi (a :: ms))) ∧
    (∀ a b : Err, a.isMulti = false → b.isMulti = false →
      Append (some a) (some b) = some (Err.multi [a, b]) ∧
      All (Append (some a) (some b)) = [a, b] ∧
      Len (Append (some a) (some b)) = 2) := by
  refine ⟨fun a => rfl, fun e => by cases e <;> rfl, fun md ms => rfl, ?_, ?_, ?_⟩
  · intro md b hb; cases b <;> simp_all [Append, Err.isMulti]
  · intro a ms ha; cases a <;> simp_all [Append, Err.isMulti]
  · intro a b ha hb
    cases a <;> cases b <;> simp_all [Append, All, ForEach, Len, Err.isMulti]

/-- Witness for C1 at two concrete non-composite errors. -/
theorem append_case_analysis_witness :
    Append (some (Err.base 0 0 "oops")) (some (Err.base 0 1 "whoops"))
      = some (Err.multi [Err.base 0 0 "oops", Err.base 0 1 "whoops"]) ∧
    All (Append (some (Err.base 0 0 "oops")) (some (Err.base 0 1 "whoops")))
      = [Err.base 0 0 "oops", Err.base 0 1 "whoops"] ∧
    Len (Append (some (Err.base 0 0 "oops")) (some (Err.base 0 1 "whoops"))) = 2 :=
  append_case_analysis.2.2.2.2.2 (Err.base 0 0 "oops") (Err.base 0 1 "whoops") rfl rfl

/-- Claim C2: identity laws of `Append` with nil — `Append(nil, nil)` is
nil, `Append(nil, x)` returns `x` itself, `Append(x, nil)` returns `x`
itself. -/
theorem append_nil_identity :
    Append none none = none ∧
    (∀ x : Option Err, Append none x = x) ∧
    (∀ x : Option Err, Append x none = x) := by
  refine ⟨rfl, fun x => ?_, fun x => rfl⟩
  cases x with
  | none => rfl
  | some e => cases e <;> rfl

/-- Claim C3: assuming every composite operand satisfies the invariant
(length ≥ 2, no composite direct elements), `Append` returns a value
that satisfies it too, and that value is nil, one of the inputs, or a
composite of ≥ 2 elements none of which is a composite. -/
theorem append_preserves_invariant (a b : Option Err) (ha : Inv a) (hb : Inv b) :
    Inv (Append a b) ∧
    (Append a b = a ∨ Append a b = b ∨
      ∃ es, Append a b = some (Err.multi es) ∧ 2 ≤ es.length ∧
        ∀ x ∈ es, x.isMulti = false) := by
  have hres := inv_append a b ha hb
  refine ⟨hres, ?_⟩
  match b with
  | none => exact Or.inl rfl
  | some e =>
    match a with
    | none => exact Or.inr (Or.inl (by cases e <;> rfl))
    | some d =>
      match d, e with
      | .multi md, .multi ms => exact Or.inr (Or.inr ⟨md ++ ms, rfl, hres⟩)
      | .multi md, .base u j n =>
        exact Or.inr (Or.inr ⟨md ++ [Err.base u j n], rfl, hres⟩)
      | .multi md, .wrapped u j n c =>
        exact Or.inr (Or.inr ⟨md ++ [Err.wrapped u j n c], rfl, hres⟩)
      | .base t i m, .multi ms =>
        exact Or.inr (Or.inr ⟨Err.base t i m :: ms, rfl, hres⟩)
      | .wrapped t i m c, .multi ms =>
        exact Or.inr (Or.inr ⟨Err.wrapped t i m c :: ms, rfl, hres⟩)
      | .base t i m, .base u j n =>
        exact Or.inr (Or.inr ⟨[Err.base t i m, Err.base u j n], rfl, hres⟩)
      | .base t i m, .wrapped u j n c =>
        exact Or.inr (Or.inr ⟨[Err.base t i m, Err.wrapped u j n c], rfl, hres⟩)
      | .wrapped t i m c, .base u j n =>
        exact Or.inr (Or.inr ⟨[Err.wrapped t i m c, Err.base u j n], rfl, hres⟩)
      | .wrapped t i m c, .wrapped u j n d =>
        exact Or.inr (Or.inr ⟨[Err.wrapped t i m c, Err.wrapped u j n d], rfl, hres⟩)

/-- Witness for C3: a well-formed composite extended by a base error. -/
theorem append_preserves_invariant_witness :
    Inv (some (Err.multi [Err.base 0 0 "a", Err.base 0 1 "b"])) ∧
    Inv (some (Err.base 0 2 "c")) ∧
    Inv (Append (some (Err.multi [Err.base 0 0 "a", Err.base 0 1 "b"]))
      (some (Err.base 0 2 "c"))) :=
  ⟨by simp [Inv, Err.isMulti], by simp [Inv],
    (append_preserves_invariant
      (some (Err.multi [Err.base 0 0 "a", Err.base 0 1 "b"]))
      (some (Err.base 0 2 "c"))
      (by simp [Inv, Err.isMulti]) (by simp [Inv])).1⟩

/-- Claim C4: folding present non-composite errors left-to-right through
`Append` starting from nil yields a value whose `All` sequence is
exactly the input sequence, and the result satisfies the
no-nested-composite invariant. -/
theorem accumulate_flattens (es : List Err) (h : ∀ e ∈ es, e.isMulti = false)
    (_hne : es ≠ []) :
    All (accumulate es) = es ∧ Inv (accumulate es) := by
  refine ⟨?_, inv_foldl es h none inv_none⟩
  rw [accumulate, all_foldl es h none]
  simp

/-- Witness for C4 at three concrete base errors. -/
theorem accumulate_flattens_witness :
    (∀ e ∈ [Err.base 0 0 "x", Err.base 0 1 "y", Err.base 0 2 "z"],
      e.isMulti = false) ∧
    All (accumulate [Err.base 0 0 "x", Err.base 0 1 "y", Err.base 0 2 "z"])
      = [Err.base 0 0 "x", Err.base 0 1 "y", Err.base 0 2 "z"] :=
  ⟨by simp [Err.isMulti],
    (accumulate_flattens [Err.base 0 0 "x", Err.base 0 1 "y", Err.base 0 2 "z"]
      (by simp [Err.isMulti]) (by simp)).1⟩

/-- Claim C5: `Len err` equals the length of `All err` and the number of
`ForEach` visits; `Len` is 0 on nil, the element count on a composite,
and 1 on any other present error. -/
theorem len_consistency :
    (∀ err : Option Err,
      Len err = (All err).length ∧ Len err = ForEach err (fun n _ => n + 1) 0) ∧
    Len none = 0 ∧
    (∀ es : List Err, Len (some (Err.multi es)) = es.length) ∧
    (∀ e : Err, e.isMulti = false → Len (some e) = 1) := by
  refine ⟨?_, rfl, fun es => rfl, ?_⟩
  · intro err
    match err with
    | none => exact ⟨rfl, rfl⟩
    | some (.multi m) =>
      refine ⟨by simp [Len], ?_⟩
      simp [Len, ForEach, foldl_count]
    | some (.base t i s) => exact ⟨rfl, rfl⟩
    | some (.wrapped t i s c) => exact ⟨rfl, rfl⟩
  · intro e he; cases e <;> simp_all [Len, Err.isMulti]

/-- Witness for C5 at a concrete base error. -/
theorem len_consistency_witness :
    (Err.base 0 0 "w").isMulti = false ∧ Len (some (Err.base 0 0 "w")) = 1 :=
  ⟨rfl, len_consistency.2.2.2 (Err.base 0 0 "w") rfl⟩

/-- Claim C6: `ForEach` on nil makes no call and `All nil` is empty;
on a composite it folds the callback over the elements in insertion
order; on any other present error it calls the callback exactly once
with that error itself. -/
theorem forEach_contract :
    (∀ (σ : Type) (f : σ → Err → σ) (init : σ), ForEach none f init = init) ∧
    All none = [] ∧
    (∀ (σ : Type) (f : σ → Err → σ) (init : σ) (es : List Err),
      ForEach (some (Err.multi es)) f init = es.foldl f init) ∧
    (∀ (σ : Type) (f : σ → Err → σ) (init : σ) (e : Err), e.isMulti = false →
      ForEach (some e) f init = f init e) := by
  refine ⟨fun σ f init => rfl, rfl, fun σ f init es => rfl, ?_⟩
  intro σ f init e he
  cases e <;> simp_all [ForEach, Err.isMulti]

/-- Witness for C6: counting the single visit on a base error. -/
theorem forEach_contract_witness :
    ForEach (some (Err.base 0 0 "v")) (fun (n : Nat) _ => n + 1) 5 = 6 :=
  forEach_contract.2.2.2 Nat (fun n _ => n + 1) 5 (Err.base 0 0 "v") rfl

/-- Claim C7: `errors.Is`/`errors.As` on a composite delegate to the
element loop; the loop succeeds iff some element matches under the host
chain semantics; elements are tested in insertion order and the `As`
binding comes from the first matching element (`List.findSome?`);
consequently a composite matches each of its non-composite elements and
matches no sentinel that matches no element. -/
theorem multi_is_as_matching :
    (∀ (es : List Err) (t : Err), errorsIs (.multi es) t = multiIs es t) ∧
    (∀ (es : List Err) (t : Err),
      multiIs es t = true ↔ ∃ e ∈ es, errorsIs e t = true) ∧
    (∀ (es : List Err) (t : Nat), errorsAs (.multi es) t = multiAs es t) ∧
    (∀ (es : List Err) (t : Nat),
      multiAs es t = es.findSome? (fun e => errorsAs e t)) ∧
    (∀ (es : List Err) (t : Nat),
      (multiAs es t).isSome = true ↔ ∃ e ∈ es, (errorsAs e t).isSome = true) ∧
    (∀ (es : List Err) (e : Err), e ∈ es → e.isMulti = false →
      multiIs es e = true) ∧
    (∀ (es : List Err) (s : Err), (∀ e ∈ es, errorsIs e s = false) →
      multiIs es s = false) := by
  refine ⟨errorsIs_multi, multiIs_iff, errorsAs_multi, multiAs_findSome,
    multiAs_isSome_iff, ?_, ?_⟩
  · intro es e he hnm
    exact (multiIs_iff es e).mpr ⟨e, he, errorsIs_self e hnm⟩
  · intro es s hall
    cases hm : multiIs es s with
    | false => rfl
    | true =>
      obtain ⟨e, he, hie⟩ := (multiIs_iff es s).mp hm
      rw [hall e he] at hie
      exact absurd hie (by simp)

/-- Witness for C7: a two-element composite matches its second element. -/
theorem multi_is_as_matching_witness :
    multiIs [Err.base 0 0 "oops", Err.base 0 1 "whoopsie"] (Err.base 0 1 "whoopsie")
      = true :=
  multi_is_as_matching.2.2.2.2.2.1
    [Err.base 0 0 "oops", Err.base 0 1 "whoopsie"] (Err.base 0 1 "whoopsie")
    (List.mem_cons_of_mem _ (List.mem_cons_self _ _)) rfl

/-- Claim C8: for a composite of N ≥ 2 elements the rendered message is
the header `"<N> errors occurred:"` plus one `"(<i>) <message>"` line
per element (1-based, insertion order), joined by single newlines with
no trailing newline, embedded newlines in element messages replaced by
newline+tab; the three-error example renders literally. -/
theorem default_format_spec :
    (∀ (es : List Err) (msgs : List String), 2 ≤ es.length →
      errsMsgs es = some msgs →
      errMsg (.multi es)
        = some (toString es.length ++ " errors occurred:\n"
            ++ String.intercalate "\n" (specLinesFrom 0 msgs))) ∧
    replaceNl "a\nb" = "a\n\tb" ∧
    errMsg (.multi [Err.base 0 0 "a\nb", Err.base 0 1 "c"])
      = some "2 errors occurred:\n(1) a\n\tb\n(2) c" ∧
    errMsg (.multi [Err.base 0 0 "oops", Err.base 0 1 "whoops", Err.base 0 2 "whoopsie"])
      = some "3 errors occurred:\n(1) oops\n(2) whoops\n(3) whoopsie" := by
  refine ⟨?_, ?_, ?_, ?_⟩
  · intro es msgs h2 hm
    match es with
    | [] => simp at h2
    | [a] => simp at h2
    | a :: b :: rest =>
      rw [errMsg_multi, multiError_ge2]
      simp only [DefaultFormatMessage, hm, Option.map, formatFromMsgs]
      rw [formatBody_zero]
  · simp [replaceNl, replaceNlChars]
  · simp [errMsg, multiError, DefaultFormatMessage, errsMsgs, formatFromMsgs,
      formatBody, replaceNl, replaceNlChars]
    rfl
  · simp [errMsg, multiError, DefaultFormatMessage, errsMsgs, formatFromMsgs,
      formatBody, replaceNl, replaceNlChars]
    rfl

/-- Witness for C8: the general format law applied to a concrete
two-element composite. -/
theorem default_format_spec_witness :
    errsMsgs [Err.base 0 0 "oops", Err.base 0 1 "whoops"] = some ["oops", "whoops"] ∧
    errMsg (.multi [Err.base 0 0 "oops", Err.base 0 1 "whoops"])
      = some (toString (2 : Nat) ++ " errors occurred:\n"
          ++ String.intercalate "\n" (specLinesFrom 0 ["oops", "whoops"])) :=
  ⟨by simp [errsMsgs, errMsg],
    default_format_spec.1 [Err.base 0 0 "oops", Err.base 0 1 "whoops"]
      ["oops", "whoops"] (by simp) (by simp [errsMsgs, errMsg])⟩

/-- Claim C9: the composite's `Error()` on a one-element list returns
just that element's message (no header, no index) and on an empty list
panics (modelled as `none`) instead of rendering silently. -/
theorem multi_error_defensive :
    errMsg (.multi []) = none ∧ (∀ e : Err, errMsg (.multi [e]) = errMsg e) := by
  constructor
  · simp [errMsg, multiError]
  · intro e
    rw [errMsg_multi]
    simp [multiError]

/-- Claim C10: the defenses live only in the composite's `Error()`
method — `DefaultFormatMessage` itself on an empty list does not panic
and returns exactly `"0 errors occurred:\n"` (trailing newline), and on
a single-element list it returns the full header-and-index rendering,
not the bare element message. -/
theorem defaultFormatMessage_no_defense :
    DefaultFormatMessage [] = some "0 errors occurred:\n" ∧
    (∀ (e : Err) (s : String), errMsg e = some s →
      DefaultFormatMessage [e]
        = some ("1 errors occurred:\n(1) " ++ replaceNl s)) ∧
    DefaultFormatMessage [Err.base 0 0 "oops"]
      = some "1 errors occurred:\n(1) oops" := by
  refine ⟨?_, ?_, ?_⟩
  · simp [DefaultFormatMessage, errsMsgs, formatFromMsgs, formatBody]
    rfl
  · intro e s hm
    simp only [DefaultFormatMessage, errsMsgs, hm]
    simp [formatFromMsgs, formatBody]
    rfl
  · simp [DefaultFormatMessage, errsMsgs, errMsg, formatFromMsgs, formatBody,
      replaceNl, replaceNlChars]
    rfl

/-- Witness for C10: the single-element rendering at a concrete error. -/
theorem defaultFormatMessage_no_defense_witness :
    errMsg (Err.base 0 0 "pow") = some "pow" ∧
    DefaultFormatMessage [Err.base 0 0 "pow"]
      = some ("1 errors occurred:\n(1) " ++ replaceNl "pow") :=
  ⟨by simp [errMsg],
    defaultFormatMessage_no_defense.2.1 (Err.base 0 0 "pow") "pow" (by simp [errMsg])⟩

end Multierr
